import Mathlib

/-!
Verification of the knowledge-representation and inference engine of
`minesweeper.py` (classes `Sentence` and `MinesweeperAI`).

Embedding conventions:
* a board coordinate is a pair of (possibly negative) integers, since the
  Python source never bounds-checks the coordinates it is handed;
* a Python `set` of coordinates is a `Finset Cell`;
* the mutable `Sentence` and `MinesweeperAI` objects become immutable
  structures, and every mutating method becomes a function returning the
  updated value;
* iteration over a Python `set` (whose order is unspecified) is embedded as
  iteration over `Finset.toList`; all the loops so embedded are
  order-independent, so the choice of order is immaterial;
* `list.remove` is `List.erase` (both drop the first matching element);
* `itertools.combinations(l, 2)` materialises its pool up front, so the
  pair loop in `generate_inferences` runs over a snapshot of the knowledge
  list taken before any append; `pairsList` reproduces exactly the pairs
  `(l[i], l[j])` with `i < j` in that order;
* `random.choice` / `set.pop` return an unspecified element of a nonempty
  collection; they are embedded as an explicit `pick` function argument.
-/

abbrev Cell : Type := Int × Int

/-- Translation of `class Sentence`: a set of board cells together with the
count of the number of those cells which are mines. `__eq__` compares the
cell set and the count, which is exactly structural equality here. -/
structure Sentence where
  cells : Finset Cell
  count : Int
  deriving DecidableEq

/-- Translation of `Sentence(cells=set(), count=0)`, the sentinel used by
`perform_cleanup`. -/
def empty_sentence : Sentence := ⟨∅, 0⟩

/-- Translation of `Sentence.known_mines`: the full cell set when
`len(self.cells) == self.count`, else the empty set. -/
def Sentence.known_mines (sen : Sentence) : Finset Cell :=
  if (sen.cells.card : Int) = sen.count then sen.cells else ∅

/-- Translation of `Sentence.known_safes`: the full cell set when
`self.count == 0`, else the empty set. -/
def Sentence.known_safes (sen : Sentence) : Finset Cell :=
  if sen.count = 0 then sen.cells else ∅

/-- Translation of `Sentence.mark_mine`: when the cell is present, remove it
and decrement the count; otherwise leave the sentence unchanged. -/
def Sentence.mark_mine (sen : Sentence) (cell : Cell) : Sentence :=
  if cell ∈ sen.cells then ⟨sen.cells.erase cell, sen.count - 1⟩ else sen

/-- Translation of `Sentence.mark_safe`: when the cell is present, remove it;
the count is unchanged. -/
def Sentence.mark_safe (sen : Sentence) (cell : Cell) : Sentence :=
  if cell ∈ sen.cells then ⟨sen.cells.erase cell, sen.count⟩ else sen

/-- State of `class MinesweeperAI`: grid dimensions, the moves made, the
cells known to be mines or safe, and the list of sentences. -/
structure MinesweeperAI where
  height : Int
  width : Int
  moves_made : Finset Cell
  mines : Finset Cell
  safes : Finset Cell
  knowledge : List Sentence
  deriving DecidableEq

/-- Translation of `MinesweeperAI.__init__` (with explicit dimensions). -/
def MinesweeperAI.init (height width : Int) : MinesweeperAI :=
  ⟨height, width, ∅, ∅, ∅, []⟩

/-- Translation of the loop body of `MinesweeperAI.get_all_cells`:
`for row in range(0, self.height - 1): for col in range(0, self.width - 1)`.
Note the upper bounds really are `height - 1` and `width - 1`, as in the
source. -/
def all_cells_of (height width : Int) : Finset Cell :=
  Finset.Ico 0 (height - 1) ×ˢ Finset.Ico 0 (width - 1)

/-- Translation of `MinesweeperAI.get_all_cells`. -/
def MinesweeperAI.get_all_cells (s : MinesweeperAI) : Finset Cell :=
  all_cells_of s.height s.width

/-- Translation of `MinesweeperAI.get_neighbours`: the candidate row set is
`{row} ∪ {row - 1 if row > 0} ∪ {row + 1 if row < height - 1}`, similarly for
columns; the result is the product of the two minus the cell itself. -/
def neighbours_of (height width : Int) (cell : Cell) : Finset Cell :=
  let neighbouring_rows : Finset Int :=
    {cell.1} ∪ (if cell.1 > 0 then {cell.1 - 1} else ∅)
      ∪ (if cell.1 < height - 1 then {cell.1 + 1} else ∅)
  let neighbouring_cols : Finset Int :=
    {cell.2} ∪ (if cell.2 > 0 then {cell.2 - 1} else ∅)
      ∪ (if cell.2 < width - 1 then {cell.2 + 1} else ∅)
  (neighbouring_rows ×ˢ neighbouring_cols).erase cell

/-- Method wrapper for `get_neighbours`, reading the grid dimensions from the
engine state. -/
def MinesweeperAI.get_neighbours (s : MinesweeperAI) (cell : Cell) : Finset Cell :=
  neighbours_of s.height s.width cell

/-- Translation of `MinesweeperAI.mark_mine`: add the cell to `self.mines`,
then call `Sentence.mark_mine` on every sentence in the knowledge base. -/
def MinesweeperAI.mark_mine (s : MinesweeperAI) (cell : Cell) : MinesweeperAI :=
  { s with
    mines := insert cell s.mines,
    knowledge := s.knowledge.map (fun sen => sen.mark_mine cell) }

/-- Translation of `MinesweeperAI.mark_safe`: add the cell to `self.safes`,
then call `Sentence.mark_safe` on every sentence in the knowledge base. -/
def MinesweeperAI.mark_safe (s : MinesweeperAI) (cell : Cell) : MinesweeperAI :=
  { s with
    safes := insert cell s.safes,
    knowledge := s.knowledge.map (fun sen => sen.mark_safe cell) }

/-- Pairs `(l[i], l[j])` with `i < j`, in the order produced by
`itertools.combinations(l, 2)`. -/
def pairsList {α : Type} : List α → List (α × α)
  | [] => []
  | x :: xs => xs.map (fun y => (x, y)) ++ pairsList xs

/-- Body of the pair loop of `MinesweeperAI.generate_inferences`: for a pair
`(sentence_one, sentence_two)`, when the two differ and
`sentence_one.cells.issubset(sentence_two.cells)`, build the difference
sentence and append it when it is not already in the knowledge base and its
cell set is non-empty. -/
def infer_step (kn : List Sentence) (p : Sentence × Sentence) : List Sentence :=
  if p.1 ≠ p.2 then
    if p.1.cells ⊆ p.2.cells then
      let subset := p.2.cells \ p.1.cells
      let sen : Sentence := ⟨subset, p.2.count - p.1.count⟩
      if sen ∉ kn ∧ 0 < subset.card then kn ++ [sen] else kn
    else kn
  else kn

/-- Translation of the `while True: knowledge.remove(empty_sentence)` loop of
`MinesweeperAI.perform_cleanup`; each iteration removes the first occurrence
of the empty sentence and the loop stops (via `ValueError`) when none is
left. The fuel argument bounds the iteration count; `length` iterations
always suffice, keeping the function structurally recursive. -/
def cleanup_loop : Nat → List Sentence → List Sentence
  | 0, kb => kb
  | Nat.succ n, kb =>
    if empty_sentence ∈ kb then cleanup_loop n (kb.erase empty_sentence) else kb

/-- Translation of `MinesweeperAI.perform_cleanup`. -/
def perform_cleanup (kb : List Sentence) : List Sentence :=
  cleanup_loop kb.length kb

/-- Translation of `MinesweeperAI.generate_inferences`: clean up, then fold
the pair-loop body over the pairs of the cleaned snapshot (the appends made
inside the loop extend the knowledge base but not the iterated pool). -/
def generate_inferences (kb : List Sentence) : List Sentence :=
  let cleaned := perform_cleanup kb
  (pairsList cleaned).foldl infer_step cleaned

/-- Translation of the fact-resolution loop body of
`MinesweeperAI.add_knowledge`: for one sentence,
`for safe_cell in self.safes: sentence.mark_safe(safe_cell)` then
`for mine_cell in self.mines: sentence.mark_mine(mine_cell)`. Python
iterates the sets in unspecified order, and the two loops are
order-independent, so the embedding records their aggregate effect: the safe
loop removes every safe cell from `cells` leaving `count` unchanged, and the
mine loop then removes every mine from the remaining cells, decrementing
`count` once per mine actually removed. -/
def resolve_facts (sen : Sentence) (safes mines : Finset Cell) : Sentence :=
  ⟨(sen.cells \ safes) \ mines,
    sen.count - (((sen.cells \ safes) ∩ mines).card : Int)⟩

/-- Translation of the final scan of `MinesweeperAI.add_knowledge`:
`for sentence in self.knowledge: self.safes |= sentence.known_safes();
self.mines |= sentence.known_mines()`. -/
def scan_facts (kb : List Sentence) (p : Finset Cell × Finset Cell) :
    Finset Cell × Finset Cell :=
  kb.foldl (fun q sen => (q.1 ∪ sen.known_safes, q.2 ∪ sen.known_mines)) p

/-- Translation of `MinesweeperAI.add_knowledge`, step by step in source
order: record the move, mark the cell safe, append the neighbour sentence,
resolve all accumulated facts into every sentence, run one inference pass,
then scan every sentence for newly complete facts. -/
def MinesweeperAI.add_knowledge (s : MinesweeperAI) (cell : Cell) (count : Int) :
    MinesweeperAI :=
  let s1 := { s with moves_made := insert cell s.moves_made }
  let s2 := s1.mark_safe cell
  let neighbours := s2.get_neighbours cell
  let s3 := { s2 with knowledge := s2.knowledge ++ [(⟨neighbours, count⟩ : Sentence)] }
  let s4 := { s3 with
    knowledge := s3.knowledge.map (fun sen => resolve_facts sen s3.safes s3.mines) }
  let s5 := { s4 with knowledge := generate_inferences s4.knowledge }
  let p := scan_facts s5.knowledge (s5.safes, s5.mines)
  { s5 with safes := p.1, mines := p.2 }

/-- Translation of `MinesweeperAI.make_safe_move`. The source computes the
fresh set `self.safes - self.moves_made` and pops an element from that fresh
set (so no attribute of the engine is written); the unspecified element
returned by `set.pop` is the `pick` argument, and the untouched engine state
is returned alongside the move to make the absence of mutation explicit. -/
def MinesweeperAI.make_safe_move (s : MinesweeperAI) (pick : Finset Cell → Cell) :
    Option Cell × MinesweeperAI :=
  let unplayed_safes := s.safes \ s.moves_made
  if unplayed_safes.Nonempty then (some (pick unplayed_safes), s) else (none, s)

/-- Translation of `MinesweeperAI.make_random_move`; the unspecified element
returned by `random.choice` is the `pick` argument. -/
def MinesweeperAI.make_random_move (s : MinesweeperAI) (pick : Finset Cell → Cell) :
    Option Cell :=
  let all_cells := s.get_all_cells
  let unplayed := all_cells \ s.moves_made
  let unplayed_not_mines := unplayed \ s.mines
  if unplayed_not_mines.Nonempty then some (pick unplayed_not_mines) else none

/-- Fold of `add_knowledge` over a list of observations, modelling a sequence
of calls on one engine instance. -/
def run_observations (s : MinesweeperAI) (obs : List (Cell × Int)) : MinesweeperAI :=
  obs.foldl (fun t o => t.add_knowledge o.1 o.2) s

/-- Semantic truth of a sentence with respect to a fixed set `M` of mined
cells: exactly `count` of the sentence's cells are mines. -/
def Holds (M : Finset Cell) (sen : Sentence) : Prop :=
  sen.count = ((sen.cells ∩ M).card : Int)

instance (M : Finset Cell) (sen : Sentence) : Decidable (Holds M sen) := by
  unfold Holds; infer_instance

/-- Soundness of an engine state with respect to a fixed set `M` of mined
cells: every recorded safe cell is not a mine, every recorded mine is a
mine, and every sentence in the knowledge base is true. -/
def SoundState (M : Finset Cell) (s : MinesweeperAI) : Prop :=
  (∀ c ∈ s.safes, c ∉ M) ∧ (∀ c ∈ s.mines, c ∈ M) ∧
    (∀ sen ∈ s.knowledge, Holds M sen)

/-- An observation `(cell, count)` is consistent with the board `M` when the
revealed cell is not a mine and the reported count is the true number of
mines among its neighbours. -/
def ConsistentObs (M : Finset Cell) (height width : Int) (o : Cell × Int) : Prop :=
  o.1 ∉ M ∧ o.2 = (((neighbours_of height width o.1) ∩ M).card : Int)

instance (M : Finset Cell) (height width : Int) (o : Cell × Int) :
    Decidable (ConsistentObs M height width o) := by
  unfold ConsistentObs; infer_instance

/-- Modelled from the spec: the full grid, "every coordinate with
`0 <= row < height` and `0 <= col < width` — the full grid, including its
last row and column" (the comparison point for `get_all_cells`). -/
def spec_all_grid_cells (height width : Int) : Finset Cell :=
  Finset.Ico 0 height ×ˢ Finset.Ico 0 width

/-- Engine state used to exhibit that one call to `add_knowledge` does not
reach the inference fixpoint: two unrelated subset pairs whose derived
sentences themselves form a new subset pair. -/
def c1_state : MinesweeperAI :=
  ⟨8, 8, ∅, ∅, ∅,
    [⟨{(5,0)}, 1⟩, ⟨{(5,0),(6,0),(6,1)}, 2⟩, ⟨{(5,1)}, 0⟩,
      ⟨{(5,1),(6,0),(6,1),(6,2)}, 1⟩]⟩

/-! Helper lemmas about `perform_cleanup`. -/

/-- With the empty sentence absent, the cleanup loop is the identity. -/
lemma cleanup_loop_of_not_mem (n : Nat) (kb : List Sentence)
    (h : empty_sentence ∉ kb) : cleanup_loop n kb = kb := by
  cases n with
  | zero => rfl
  | succ n => simp [cleanup_loop, h]

/-- Membership in the cleanup loop, given enough fuel: exactly the members of
the input other than the empty sentence survive. -/
lemma cleanup_loop_mem (n : Nat) (kb : List Sentence) (hn : kb.length ≤ n)
    (x : Sentence) : x ∈ cleanup_loop n kb ↔ x ∈ kb ∧ x ≠ empty_sentence := by
  induction n generalizing kb with
  | zero =>
    have : kb = [] := List.length_eq_zero.mp (Nat.le_zero.mp hn)
    subst this
    simp [cleanup_loop]
  | succ n ih =>
    by_cases h : empty_sentence ∈ kb
    · have hlen : (kb.erase empty_sentence).length ≤ n := by
        have := List.length_erase_of_mem h
        omega
      rw [cleanup_loop, if_pos h, ih _ hlen]
      constructor
      · rintro ⟨hx, hne⟩
        exact ⟨(List.mem_erase_of_ne hne).mp hx, hne⟩
      · rintro ⟨hx, hne⟩
        exact ⟨(List.mem_erase_of_ne hne).mpr hx, hne⟩
    · rw [cleanup_loop, if_neg h]
      constructor
      · intro hx
        refine ⟨hx, ?_⟩
        rintro rfl
        exact h hx
      · exact fun hx => hx.1

/-- Membership in `perform_cleanup`. -/
lemma perform_cleanup_mem (kb : List Sentence) (x : Sentence) :
    x ∈ perform_cleanup kb ↔ x ∈ kb ∧ x ≠ empty_sentence :=
  cleanup_loop_mem kb.length kb le_rfl x

/-! Helper lemmas about the inference pass. -/

/-- Both components of a pair produced by `pairsList` are members of the
underlying list. -/
lemma pairsList_mem {α : Type} (l : List α) (p : α × α) (hp : p ∈ pairsList l) :
    p.1 ∈ l ∧ p.2 ∈ l := by
  induction l with
  | nil => simp [pairsList] at hp
  | cons x xs ih =>
    simp only [pairsList, List.mem_append, List.mem_map] at hp
    rcases hp with ⟨y, hy, rfl⟩ | hp
    · exact ⟨List.mem_cons_self x xs, List.mem_cons_of_mem x hy⟩
    · exact ⟨List.mem_cons_of_mem x (ih hp).1, List.mem_cons_of_mem x (ih hp).2⟩

/-- One step of the pair loop only ever appends, so membership is preserved. -/
lemma mem_infer_step (kn : List Sentence) (p : Sentence × Sentence) (x : Sentence)
    (hx : x ∈ kn) : x ∈ infer_step kn p := by
  simp only [infer_step]
  split_ifs <;> simp [hx]

/-- Folding the pair loop only ever appends, so membership is preserved. -/
lemma mem_foldl_infer_step (ps : List (Sentence × Sentence)) (kn : List Sentence)
    (x : Sentence) (hx : x ∈ kn) : x ∈ ps.foldl infer_step kn := by
  induction ps generalizing kn with
  | nil => exact hx
  | cons p ps ih => exact ih _ (mem_infer_step kn p x hx)

/-- Any sentence present after `generate_inferences` that was present before
is still present; and the appended observation survives the cleanup when it
is not the empty sentence. -/
lemma mem_generate_inferences (kb : List Sentence) (x : Sentence)
    (hx : x ∈ kb) (hne : x ≠ empty_sentence) : x ∈ generate_inferences kb := by
  unfold generate_inferences
  exact mem_foldl_infer_step _ _ x ((perform_cleanup_mem kb x).mpr ⟨hx, hne⟩)

/-! Claim C5. -/

/-- C5 counterexample: a statement with empty cells and count `1` survives
`perform_cleanup`, contradicting the claim that every statement with an
empty cell set is purged whatever its count is. -/
theorem c5_counterexample :
    ∃ sen ∈ perform_cleanup [(⟨∅, 1⟩ : Sentence)], sen.cells = ∅ := by
  decide

/-- C5 amended: the purge that precedes pair iteration removes exactly the
statements equal to the sentence with empty cells and count `0`; a statement
with empty cells but non-zero count is retained. -/
theorem c5_cleanup_amended (kb : List Sentence) (x : Sentence) :
    x ∈ perform_cleanup kb ↔ x ∈ kb ∧ ¬(x.cells = ∅ ∧ x.count = 0) := by
  rw [perform_cleanup_mem]
  constructor
  · rintro ⟨hx, hne⟩
    refine ⟨hx, ?_⟩
    rintro ⟨h1, h2⟩
    exact hne (by cases x; simp_all [empty_sentence])
  · rintro ⟨hx, hne⟩
    refine ⟨hx, ?_⟩
    rintro rfl
    exact hne ⟨rfl, rfl⟩

/-! Claim C6. -/

/-- C6: `known_mines` returns the full cell set when `|cells| = count` and
the empty set otherwise; `known_safes` returns the full cell set when
`count = 0` and the empty set otherwise. Both are plain queries of the
sentence value (the embedding of a Python method that performs no write). -/
theorem c6_known_queries (sen : Sentence) :
    (((sen.cells.card : Int) = sen.count → sen.known_mines = sen.cells) ∧
      ((sen.cells.card : Int) ≠ sen.count → sen.known_mines = ∅)) ∧
    ((sen.count = 0 → sen.known_safes = sen.cells) ∧
      (sen.count ≠ 0 → sen.known_safes = ∅)) := by
  unfold Sentence.known_mines Sentence.known_safes
  split_ifs <;> simp_all

/-- C6 witness: the two queries evaluated on the concrete sentence
`{(0,0)} = 1`. -/
theorem c6_witness :
    ((((⟨{(0,0)}, 1⟩ : Sentence).cells.card : Int) = (⟨{(0,0)}, 1⟩ : Sentence).count) ∧
      (⟨{(0,0)}, 1⟩ : Sentence).known_mines = {(0,0)}) ∧
    (((⟨{(0,0)}, 1⟩ : Sentence).count ≠ 0) ∧
      (⟨{(0,0)}, 1⟩ : Sentence).known_safes = ∅) :=
  ⟨⟨by decide, (c6_known_queries ⟨{(0,0)}, 1⟩).1.1 (by decide)⟩,
    ⟨by decide, (c6_known_queries ⟨{(0,0)}, 1⟩).2.2 (by decide)⟩⟩

/-! Claim C2. -/

/-- C2 counterexample: with the knowledge base `[{(0,0),(0,1),(0,2)} = 2,
{(0,0)} = 1]` — the subset appearing after its superset — the claim demands
that the candidate `{(0,1),(0,2)} = 1` be appended, but `generate_inferences`
leaves the knowledge base unchanged: the pair loop only tests whether the
list-earlier statement's cells are a subset of the list-later one's. -/
theorem c2_counterexample :
    generate_inferences [⟨{(0,0),(0,1),(0,2)}, 2⟩, ⟨{(0,0)}, 1⟩] =
      [⟨{(0,0),(0,1),(0,2)}, 2⟩, ⟨{(0,0)}, 1⟩] := by
  decide

/-- C2 amended: the pair loop visits each pair of positions `(i, j)` with
`i < j` once and derives the difference statement only when the earlier
statement's cells are a subset of the later statement's cells, appending it
exactly when its cell set is non-empty and no equal statement is already
present; when the subset statement appears after its superset, the pair
yields nothing. Stated on a two-statement knowledge base, which isolates a
single pair. -/
theorem c2_ordered_subset_amended (A B : Sentence) (hne : A ≠ B)
    (hA : A ≠ empty_sentence) (hB : B ≠ empty_sentence)
    (hsub : A.cells ⊆ B.cells) (hdiff : (B.cells \ A.cells).Nonempty)
    (hnew : (⟨B.cells \ A.cells, B.count - A.count⟩ : Sentence) ∉ [A, B]) :
    generate_inferences [A, B] =
        [A, B, ⟨B.cells \ A.cells, B.count - A.count⟩] ∧
      generate_inferences [B, A] = [B, A] := by
  have hcAB : empty_sentence ∉ [A, B] := by
    intro h
    rcases List.mem_pair.mp h with h | h
    · exact hA h.symm
    · exact hB h.symm
  have hcBA : empty_sentence ∉ [B, A] := by
    intro h
    rcases List.mem_pair.mp h with h | h
    · exact hB h.symm
    · exact hA h.symm
  have hclAB : perform_cleanup [A, B] = [A, B] :=
    cleanup_loop_of_not_mem _ _ hcAB
  have hclBA : perform_cleanup [B, A] = [B, A] :=
    cleanup_loop_of_not_mem _ _ hcBA
  constructor
  · rw [generate_inferences, hclAB]
    show infer_step [A, B] (A, B) = _
    rw [infer_step, if_pos hne, if_pos hsub]
    simp only []
    rw [if_pos ⟨hnew, Finset.card_pos.mpr hdiff⟩]
    rfl
  · rw [generate_inferences, hclBA]
    show infer_step [B, A] (B, A) = _
    have hnsub : ¬ B.cells ⊆ A.cells := by
      intro h
      have : B.cells \ A.cells = ∅ := Finset.sdiff_eq_empty_iff_subset.mpr h
      rw [this] at hdiff
      exact Finset.not_nonempty_empty hdiff
    rw [infer_step, if_pos hne.symm, if_neg hnsub]

/-- C2 witness: the amended theorem applied to the concrete pair
`{(0,0)} = 1` and `{(0,0),(0,1)} = 1`. -/
theorem c2_witness :
    generate_inferences [⟨{(0,0)}, 1⟩, ⟨{(0,0),(0,1)}, 1⟩] =
      [⟨{(0,0)}, 1⟩, ⟨{(0,0),(0,1)}, 1⟩, ⟨{(0,1)}, 0⟩] := by
  have h := (c2_ordered_subset_amended ⟨{(0,0)}, 1⟩ ⟨{(0,0),(0,1)}, 1⟩
    (by decide) (by decide) (by decide) (by decide) (by decide) (by decide)).1
  have hc : ({(0,0),(0,1)} : Finset Cell) \ {(0,0)} = {(0,1)} := by decide
  have hn : (1 : Int) - 1 = 0 := by decide
  rw [h, hc, hn]

/-! Claim C3. -/

/-- C3 counterexample: on a fresh 1×2 engine, `add_knowledge((0,0), 1)`
leaves the knowledge base holding the statement `{(0,1)} = 1` while `(0,1)`
has just been added to the known mines by the final scan, so a cell of a
retained statement is in `known_mines` when the call returns. -/
theorem c3_counterexample :
    (0,1) ∈ ((MinesweeperAI.init 1 2).add_knowledge (0,0) 1).mines ∧
      ∃ sen ∈ ((MinesweeperAI.init 1 2).add_knowledge (0,0) 1).knowledge,
        (0,1) ∈ sen.cells := by
  decide

/-- C3 amended: eviction of a resolved cell from every statement happens when
(and only where) the engine's `mark_safe` or `mark_mine` is called; the final
scan of `add_knowledge` adds cells to the fact sets directly, without calling
either, so those cells may remain inside statements when the call returns. -/
theorem c3_mark_evicts_amended (s : MinesweeperAI) (cell : Cell) (sen : Sentence) :
    (sen ∈ (s.mark_safe cell).knowledge → cell ∉ sen.cells) ∧
      (sen ∈ (s.mark_mine cell).knowledge → cell ∉ sen.cells) := by
  constructor
  · intro hmem
    simp only [MinesweeperAI.mark_safe, List.mem_map] at hmem
    obtain ⟨t, _, rfl⟩ := hmem
    rw [Sentence.mark_safe]
    split_ifs with h <;> simp [h]
  · intro hmem
    simp only [MinesweeperAI.mark_mine, List.mem_map] at hmem
    obtain ⟨t, _, rfl⟩ := hmem
    rw [Sentence.mark_mine]
    split_ifs with h <;> simp [h]

/-- C3 witness: applying the amended theorem to a concrete engine holding
the single statement `{(0,0),(1,1)} = 1` and marking `(0,0)` safe. -/
theorem c3_witness :
    (⟨{(1,1)}, 1⟩ : Sentence) ∈
        ((⟨2, 2, ∅, ∅, ∅, [⟨{(0,0),(1,1)}, 1⟩]⟩ : MinesweeperAI).mark_safe
          (0,0)).knowledge ∧
      (0,0) ∉ (⟨{(1,1)}, 1⟩ : Sentence).cells :=
  ⟨by decide,
    (c3_mark_evicts_amended ⟨2, 2, ∅, ∅, ∅, [⟨{(0,0),(1,1)}, 1⟩]⟩ (0,0)
      ⟨{(1,1)}, 1⟩).1 (by decide)⟩

/-! Claim C4. -/

/-- C4: `get_all_cells` enumerates `range(0, height - 1) × range(0, width - 1)`,
omitting the last row and the last column, so `make_random_move` draws from a
truncated grid. On a fresh 1×1 engine the spec-side candidate set
`all_grid_cells − moves_made − known_mines` is the non-empty `{(0,0)}`, yet
the code's candidate set is empty and the call returns `None` for every
possible random choice. This contradicts the code's own docstring
("Returns all possible cells on the board") and the spec, which names the
full grid as intended behaviour. -/
theorem c4_get_all_cells_bug (pick : Finset Cell → Cell) :
    (MinesweeperAI.init 1 1).make_random_move pick = none ∧
      (MinesweeperAI.init 1 1).get_all_cells = ∅ ∧
      ((spec_all_grid_cells 1 1 \ (MinesweeperAI.init 1 1).moves_made) \
          (MinesweeperAI.init 1 1).mines).Nonempty := by
  refine ⟨?_, by decide, by decide⟩
  simp only [MinesweeperAI.make_random_move]
  exact if_neg (by decide)

/-! Claim C9. -/

/-- C9: `make_safe_move` returns an element of `safes − moves_made` when that
difference is non-empty and `None` otherwise, and leaves the engine state —
in particular `moves_made`, `safes` and `mines` — unchanged (the source pops
from the fresh set `self.safes - self.moves_made`, never writing an
attribute). The hypothesis states that the modelled `set.pop` returns a
member of the popped set when it is invoked, i.e. when the set is
non-empty. -/
theorem c9_make_safe_move (s : MinesweeperAI) (pick : Finset Cell → Cell)
    (hpick : (s.safes \ s.moves_made).Nonempty →
      pick (s.safes \ s.moves_made) ∈ s.safes \ s.moves_made) :
    (s.make_safe_move pick).2 = s ∧
      ((s.safes \ s.moves_made).Nonempty →
        ∃ c ∈ s.safes \ s.moves_made, (s.make_safe_move pick).1 = some c) ∧
      (¬ (s.safes \ s.moves_made).Nonempty → (s.make_safe_move pick).1 = none) := by
  simp only [MinesweeperAI.make_safe_move]
  split_ifs with h
  · exact ⟨rfl, fun _ => ⟨pick (s.safes \ s.moves_made), hpick h, rfl⟩,
      fun hc => absurd h hc⟩
  · exact ⟨rfl, fun hc => absurd hc h, fun _ => rfl⟩

/-- C9 witness: the theorem applied to a concrete engine with
`safes = {(0,0)}`, no moves made, and the pick function constantly `(0,0)`. -/
theorem c9_witness :
    ((⟨2, 2, ∅, ∅, {(0,0)}, []⟩ : MinesweeperAI).make_safe_move
        (fun _ => (0,0))).2 = ⟨2, 2, ∅, ∅, {(0,0)}, []⟩ ∧
      ∃ c ∈ (⟨2, 2, ∅, ∅, {(0,0)}, []⟩ : MinesweeperAI).safes \
          (⟨2, 2, ∅, ∅, {(0,0)}, []⟩ : MinesweeperAI).moves_made,
        ((⟨2, 2, ∅, ∅, {(0,0)}, []⟩ : MinesweeperAI).make_safe_move
          (fun _ => (0,0))).1 = some c :=
  ⟨(c9_make_safe_move ⟨2, 2, ∅, ∅, {(0,0)}, []⟩ (fun _ => (0,0))
      (fun _ => by decide)).1,
    (c9_make_safe_move ⟨2, 2, ∅, ∅, {(0,0)}, []⟩ (fun _ => (0,0))
      (fun _ => by decide)).2.1 (by decide)⟩

/-! Claim C7. -/

/-- C7: for a cell within grid bounds, `get_neighbours` returns exactly the
in-bounds coordinates whose row and column each differ from the cell's by at
most one, excluding the cell itself — in particular never an out-of-bounds
coordinate. -/
theorem c7_neighbours (height width row col a b : Int)
    (hr0 : 0 ≤ row) (hrh : row < height) (hc0 : 0 ≤ col) (hcw : col < width) :
    (a, b) ∈ neighbours_of height width (row, col) ↔
      (0 ≤ a ∧ a < height ∧ 0 ≤ b ∧ b < width ∧
        row - 1 ≤ a ∧ a ≤ row + 1 ∧ col - 1 ≤ b ∧ b ≤ col + 1 ∧
        ¬(a = row ∧ b = col)) := by
  simp only [neighbours_of, Finset.mem_erase, Finset.mem_product,
    Finset.mem_union, Finset.mem_singleton, Prod.mk.injEq, ne_eq]
  split_ifs <;> simp_all <;> omega

/-- C7 witness: the theorem evaluated on the concrete 2×2 grid at cell
`(0,0)` and candidate neighbour `(1,1)`. -/
theorem c7_witness :
    ((0:Int) ≤ 0 ∧ (0:Int) < 2) ∧
      ((1,1) ∈ neighbours_of 2 2 (0,0)) :=
  ⟨⟨by decide, by decide⟩,
    (c7_neighbours 2 2 0 0 1 1 (by decide) (by decide) (by decide)
      (by decide)).mpr (by decide)⟩

/-! Structural facts about `add_knowledge`, all definitional. -/

/-- Unfolding of the knowledge base produced by `add_knowledge`: mark the
observed cell safe in every sentence, append the neighbour sentence, resolve
all accumulated facts into every sentence, then run one inference pass. -/
lemma add_knowledge_knowledge (s : MinesweeperAI) (cell : Cell) (count : Int) :
    (s.add_knowledge cell count).knowledge =
      generate_inferences
        (((s.knowledge.map (fun sen => sen.mark_safe cell)) ++
            [(⟨neighbours_of s.height s.width cell, count⟩ : Sentence)]).map
          (fun sen => resolve_facts sen (insert cell s.safes) s.mines)) := rfl

/-- Unfolding of the safe set produced by `add_knowledge`: the final scan
folded over the final knowledge base, starting from the observed cell's
insertion. -/
lemma add_knowledge_safes (s : MinesweeperAI) (cell : Cell) (count : Int) :
    (s.add_knowledge cell count).safes =
      (scan_facts (s.add_knowledge cell count).knowledge
        (insert cell s.safes, s.mines)).1 := rfl

/-- Unfolding of the mine set produced by `add_knowledge`. -/
lemma add_knowledge_mines (s : MinesweeperAI) (cell : Cell) (count : Int) :
    (s.add_knowledge cell count).mines =
      (scan_facts (s.add_knowledge cell count).knowledge
        (insert cell s.safes, s.mines)).2 := rfl

/-- The grid height is never written by `add_knowledge`. -/
lemma add_knowledge_height (s : MinesweeperAI) (cell : Cell) (count : Int) :
    (s.add_knowledge cell count).height = s.height := rfl

/-- The grid width is never written by `add_knowledge`. -/
lemma add_knowledge_width (s : MinesweeperAI) (cell : Cell) (count : Int) :
    (s.add_knowledge cell count).width = s.width := rfl

/-! Helper lemmas about the final fact scan. -/

/-- The scan only unions in sentence contributions, so it factors as the
initial pair united with the scan started from empty sets. -/
lemma scan_facts_shift (kb : List Sentence) (S M : Finset Cell) :
    scan_facts kb (S, M) =
      (S ∪ (scan_facts kb (∅, ∅)).1, M ∪ (scan_facts kb (∅, ∅)).2) := by
  induction kb generalizing S M with
  | nil => simp [scan_facts]
  | cons sen kb ih =>
    show scan_facts kb (S ∪ sen.known_safes, M ∪ sen.known_mines) = _
    rw [ih]
    conv_rhs =>
      rw [show scan_facts (sen :: kb) ((∅ : Finset Cell), (∅ : Finset Cell)) =
        scan_facts kb (∅ ∪ sen.known_safes, ∅ ∪ sen.known_mines) from rfl, ih]
    simp [Finset.union_assoc]

/-- The initial pair is contained in the scan result. -/
lemma scan_facts_mono (kb : List Sentence) (S M : Finset Cell) :
    S ⊆ (scan_facts kb (S, M)).1 ∧ M ⊆ (scan_facts kb (S, M)).2 := by
  rw [scan_facts_shift]
  exact ⟨Finset.subset_union_left, Finset.subset_union_left⟩

/-- Scanning the same knowledge base a second time adds nothing. -/
lemma scan_facts_idem (kb : List Sentence) (S M : Finset Cell) :
    scan_facts kb (scan_facts kb (S, M)) = scan_facts kb (S, M) := by
  rw [scan_facts_shift kb S M, scan_facts_shift kb (S ∪ (scan_facts kb (∅, ∅)).1)
    (M ∪ (scan_facts kb (∅, ∅)).2)]
  simp [Finset.union_assoc]

/-! Claim C1. -/

/-- C1 counterexample: after `add_knowledge((0,0), 1)` on the concrete state
`c1_state`, running the inference pass once more appends a new statement
(`{(6,2)} = 0`, combining the two statements the first pass derived), so the
returned state is not an inference fixpoint: the pass is run once, not
repeated until nothing new is produced. -/
theorem c1_counterexample :
    generate_inferences ((c1_state.add_knowledge (0,0) 1).knowledge) ≠
      (c1_state.add_knowledge (0,0) 1).knowledge := by
  decide

/-- C1 amended: `add_knowledge` runs a single subset-elimination pass over a
snapshot of the statement list and a single scan of complete statements, with
no fixpoint repetition; a further inference pass may add new statements
(see the counterexample), but a further scan of the returned statement list
adds no new cell to `safes` or `mines`, because the single scan already
folded over the final statement list. -/
theorem c1_single_pass_amended (s : MinesweeperAI) (cell : Cell) (count : Int) :
    scan_facts (s.add_knowledge cell count).knowledge
        ((s.add_knowledge cell count).safes, (s.add_knowledge cell count).mines) =
      ((s.add_knowledge cell count).safes, (s.add_knowledge cell count).mines) := by
  rw [add_knowledge_safes s cell count, add_knowledge_mines s cell count]
  exact scan_facts_idem _ _ _

/-! Claim C10. -/

/-- C10: `add_knowledge` performs no validation: for every cell (in bounds or
not, already moved or not) and every integer count (negative or exceeding 8),
the call completes, records the move, marks the cell safe, and retains the
statement built from that cell and count (after fact resolution) in the
knowledge base — provided only that its resolved form is not the empty
statement that the cleanup step drops. No operation checks the count against
`[0, |cells|]`. -/
theorem c10_no_validation (s : MinesweeperAI) (cell : Cell) (count : Int)
    (hne : resolve_facts ⟨neighbours_of s.height s.width cell, count⟩
        (insert cell s.safes) s.mines ≠ empty_sentence) :
    (s.add_knowledge cell count).moves_made = insert cell s.moves_made ∧
      cell ∈ (s.add_knowledge cell count).safes ∧
      resolve_facts ⟨neighbours_of s.height s.width cell, count⟩
          (insert cell s.safes) s.mines ∈ (s.add_knowledge cell count).knowledge := by
  refine ⟨rfl, ?_, ?_⟩
  · rw [add_knowledge_safes s cell count]
    exact (scan_facts_mono _ _ _).1 (Finset.mem_insert_self cell s.safes)
  · rw [add_knowledge_knowledge s cell count]
    apply mem_generate_inferences _ _ _ hne
    exact List.mem_map_of_mem _ (by simp)

/-- C10 witness: the out-of-bounds cell `(-3, 10)` with the impossible count
`-2` on a fresh 8×8 engine is accepted and its statement retained. -/
theorem c10_witness :
    resolve_facts ⟨neighbours_of 8 8 (-3, 10), -2⟩
        (insert (-3, 10) (MinesweeperAI.init 8 8).safes)
        (MinesweeperAI.init 8 8).mines ∈
      ((MinesweeperAI.init 8 8).add_knowledge (-3, 10) (-2)).knowledge :=
  (c10_no_validation (MinesweeperAI.init 8 8) (-3, 10) (-2) (by decide)).2.2

/-! Soundness of the engine with respect to a fixed board, used for C8. -/

/-- Removing a non-mine cell from a sentence preserves its truth. -/
lemma holds_mark_safe (M : Finset Cell) (sen : Sentence) (c : Cell)
    (hc : c ∉ M) (hsen : Holds M sen) : Holds M (sen.mark_safe c) := by
  rw [Sentence.mark_safe]
  split_ifs with h
  · unfold Holds at *
    have heq : sen.cells.erase c ∩ M = sen.cells ∩ M := by
      ext x
      simp only [Finset.mem_inter, Finset.mem_erase]
      constructor
      · rintro ⟨⟨_, hx⟩, hM⟩
        exact ⟨hx, hM⟩
      · rintro ⟨hx, hM⟩
        exact ⟨⟨fun he => hc (he ▸ hM), hx⟩, hM⟩
    simpa [heq] using hsen
  · exact hsen

/-- The sentence whose cells are the true and reported mines among two true
sentences related by subset inclusion is itself true: the difference sentence
derived by subset elimination is sound. -/
lemma holds_diff (M : Finset Cell) (A B : Sentence) (hsub : A.cells ⊆ B.cells)
    (hA : Holds M A) (hB : Holds M B) :
    Holds M (⟨B.cells \ A.cells, B.count - A.count⟩ : Sentence) := by
  unfold Holds at *
  have heq : (B.cells \ A.cells) ∩ M = (B.cells ∩ M) \ (A.cells ∩ M) := by
    ext x
    simp only [Finset.mem_inter, Finset.mem_sdiff, not_and]
    constructor
    · rintro ⟨⟨hb, hna⟩, hm⟩
      exact ⟨⟨hb, hm⟩, fun hx _ => hna hx⟩
    · rintro ⟨⟨hb, hm⟩, hn⟩
      exact ⟨⟨hb, fun ha => hn ha hm⟩, hm⟩
  have hsub2 : A.cells ∩ M ⊆ B.cells ∩ M := fun x hx =>
    Finset.mem_inter.mpr ⟨hsub (Finset.mem_inter.mp hx).1, (Finset.mem_inter.mp hx).2⟩
  have hcard := Finset.card_sdiff hsub2
  have hle := Finset.card_le_card hsub2
  simp only []
  rw [heq, hcard]
  omega

/-- Resolving sound facts into a true sentence keeps it true. -/
lemma holds_resolve_facts (M : Finset Cell) (sen : Sentence) (safes mines : Finset Cell)
    (hsen : Holds M sen) (hsafes : ∀ c ∈ safes, c ∉ M) (hmines : ∀ c ∈ mines, c ∈ M) :
    Holds M (resolve_facts sen safes mines) := by
  unfold Holds resolve_facts at *
  simp only []
  have h1 : (sen.cells \ safes) ∩ M = sen.cells ∩ M := by
    ext x
    simp only [Finset.mem_inter, Finset.mem_sdiff]
    constructor
    · rintro ⟨⟨hc, _⟩, hM⟩
      exact ⟨hc, hM⟩
    · rintro ⟨hc, hM⟩
      exact ⟨⟨hc, fun hs => hsafes x hs hM⟩, hM⟩
  have h2 : ((sen.cells \ safes) \ mines) ∩ M =
      ((sen.cells \ safes) ∩ M) \ ((sen.cells \ safes) ∩ mines) := by
    ext x
    simp only [Finset.mem_inter, Finset.mem_sdiff, not_and]
    constructor
    · rintro ⟨⟨⟨hc, hs⟩, hm⟩, hM⟩
      exact ⟨⟨⟨hc, hs⟩, hM⟩, fun _ hx => hm hx⟩
    · rintro ⟨⟨⟨hc, hs⟩, hM⟩, hn⟩
      exact ⟨⟨⟨hc, hs⟩, fun hm => hn ⟨hc, hs⟩ hm⟩, hM⟩
  have hsub : (sen.cells \ safes) ∩ mines ⊆ (sen.cells \ safes) ∩ M := fun x hx =>
    Finset.mem_inter.mpr ⟨(Finset.mem_inter.mp hx).1, hmines x (Finset.mem_inter.mp hx).2⟩
  have hcard := Finset.card_sdiff hsub
  have hle := Finset.card_le_card hsub
  rw [h2, hcard, h1] at *
  omega

/-- A true sentence with count zero contains no mines. -/
lemma holds_known_safes (M : Finset Cell) (sen : Sentence) (hsen : Holds M sen) :
    ∀ c ∈ sen.known_safes, c ∉ M := by
  intro c hc hM
  rw [Sentence.known_safes] at hc
  split_ifs at hc with h
  · unfold Holds at hsen
    have h0 : (sen.cells ∩ M).card = 0 := by omega
    have hmem : c ∈ sen.cells ∩ M := Finset.mem_inter.mpr ⟨hc, hM⟩
    rw [Finset.card_eq_zero.mp h0] at hmem
    exact Finset.not_mem_empty c hmem
  · exact Finset.not_mem_empty c hc

/-- A true sentence whose cell count equals its mine count contains only
mines. -/
lemma holds_known_mines (M : Finset Cell) (sen : Sentence) (hsen : Holds M sen) :
    ∀ c ∈ sen.known_mines, c ∈ M := by
  intro c hc
  rw [Sentence.known_mines] at hc
  split_ifs at hc with h
  · unfold Holds at hsen
    have heq : sen.cells ∩ M = sen.cells :=
      Finset.eq_of_subset_of_card_le Finset.inter_subset_left (by omega)
    have hmem : c ∈ sen.cells ∩ M := by rw [heq]; exact hc
    exact (Finset.mem_inter.mp hmem).2
  · exact absurd hc (Finset.not_mem_empty c)

/-- One step of the pair loop keeps every sentence true, provided the pair's
two components are true. -/
lemma holds_infer_step (M : Finset Cell) (kn : List Sentence) (p : Sentence × Sentence)
    (hkn : ∀ x ∈ kn, Holds M x) (h1 : Holds M p.1) (h2 : Holds M p.2) :
    ∀ x ∈ infer_step kn p, Holds M x := by
  intro x hx
  simp only [infer_step] at hx
  split_ifs at hx with ha hb hc
  · rcases List.mem_append.mp hx with h | h
    · exact hkn x h
    · have hx2 : x = ⟨p.2.cells \ p.1.cells, p.2.count - p.1.count⟩ := by
        simpa using h
      subst hx2
      exact holds_diff M p.1 p.2 hb h1 h2
  · exact hkn x hx
  · exact hkn x hx
  · exact hkn x hx

/-- The inference pass keeps every sentence of the knowledge base true. -/
lemma holds_generate_inferences (M : Finset Cell) (kb : List Sentence)
    (hkb : ∀ x ∈ kb, Holds M x) : ∀ x ∈ generate_inferences kb, Holds M x := by
  have hclean : ∀ x ∈ perform_cleanup kb, Holds M x := fun x hx =>
    hkb x ((perform_cleanup_mem kb x).mp hx).1
  have hfold : ∀ ps : List (Sentence × Sentence), ∀ kn : List Sentence,
      (∀ q ∈ ps, (q : Sentence × Sentence).1 ∈ perform_cleanup kb ∧
        q.2 ∈ perform_cleanup kb) →
      (∀ x ∈ kn, Holds M x) → ∀ x ∈ ps.foldl infer_step kn, Holds M x := by
    intro ps
    induction ps with
    | nil => exact fun kn _ hkn => hkn
    | cons q ps ih =>
      intro kn hq hkn
      exact ih _ (fun r hr => hq r (List.mem_cons_of_mem _ hr))
        (holds_infer_step M kn q hkn
          (hclean _ (hq q (List.mem_cons_self _ _)).1)
          (hclean _ (hq q (List.mem_cons_self _ _)).2))
  exact hfold _ _ (fun q hq => pairsList_mem _ q hq) hclean

/-- The final scan preserves the soundness of the two fact sets when every
scanned sentence is true. -/
lemma scan_facts_sound (M : Finset Cell) (kb : List Sentence) (S Mi : Finset Cell)
    (hS : ∀ c ∈ S, c ∉ M) (hMi : ∀ c ∈ Mi, c ∈ M)
    (hkb : ∀ sen ∈ kb, Holds M sen) :
    (∀ c ∈ (scan_facts kb (S, Mi)).1, c ∉ M) ∧
      (∀ c ∈ (scan_facts kb (S, Mi)).2, c ∈ M) := by
  induction kb generalizing S Mi with
  | nil => exact ⟨hS, hMi⟩
  | cons sen kb ih =>
    have hsen := hkb sen (List.mem_cons_self _ _)
    refine ih (S ∪ sen.known_safes) (Mi ∪ sen.known_mines) ?_ ?_
      (fun x hx => hkb x (List.mem_cons_of_mem _ hx))
    · intro c hc
      rcases Finset.mem_union.mp hc with h | h
      · exact hS c h
      · exact holds_known_safes M sen hsen c h
    · intro c hc
      rcases Finset.mem_union.mp hc with h | h
      · exact hMi c h
      · exact holds_known_mines M sen hsen c h

/-- A consistent observation recorded on a sound state yields a sound state:
this is the preservation step of the whole-engine invariant. -/
lemma sound_add (M : Finset Cell) (s : MinesweeperAI) (cell : Cell) (count : Int)
    (hs : SoundState M s) (ho : ConsistentObs M s.height s.width (cell, count)) :
    SoundState M (s.add_knowledge cell count) := by
  obtain ⟨hsafes, hmines, hknow⟩ := hs
  obtain ⟨hcell, hcount⟩ := ho
  have hsafes2 : ∀ c ∈ insert cell s.safes, c ∉ M := by
    intro c hc
    rcases Finset.mem_insert.mp hc with rfl | h
    · exact hcell
    · exact hsafes c h
  have hk2 : ∀ x ∈ s.knowledge.map (fun sen => sen.mark_safe cell), Holds M x := by
    intro x hx
    obtain ⟨t, ht, rfl⟩ := List.mem_map.mp hx
    exact holds_mark_safe M t cell hcell (hknow t ht)
  have hN : Holds M (⟨neighbours_of s.height s.width cell, count⟩ : Sentence) := hcount
  have hk4 : ∀ x ∈ ((s.knowledge.map (fun sen => sen.mark_safe cell) ++
      [(⟨neighbours_of s.height s.width cell, count⟩ : Sentence)]).map
        (fun sen => resolve_facts sen (insert cell s.safes) s.mines)), Holds M x := by
    intro x hx
    obtain ⟨t, ht, rfl⟩ := List.mem_map.mp hx
    rcases List.mem_append.mp ht with h | h
    · exact holds_resolve_facts M t _ _ (hk2 t h) hsafes2 hmines
    · have ht2 : t = (⟨neighbours_of s.height s.width cell, count⟩ : Sentence) := by
        simpa using h
      subst ht2
      exact holds_resolve_facts M _ _ _ hN hsafes2 hmines
  have hk5 := holds_generate_inferences M _ hk4
  have hscan := scan_facts_sound M (s.add_knowledge cell count).knowledge
    (insert cell s.safes) s.mines hsafes2 hmines
    (by rw [add_knowledge_knowledge s cell count]; exact hk5)
  refine ⟨?_, ?_, ?_⟩
  · rw [add_knowledge_safes s cell count]
    exact hscan.1
  · rw [add_knowledge_mines s cell count]
    exact hscan.2
  · rw [add_knowledge_knowledge s cell count]
    exact hk5

/-- A fresh engine is sound for every board. -/
lemma sound_init (M : Finset Cell) (h w : Int) :
    SoundState M (MinesweeperAI.init h w) :=
  ⟨fun c hc => absurd hc (Finset.not_mem_empty c),
    fun c hc => absurd hc (Finset.not_mem_empty c),
    fun sen hsen => absurd hsen (List.not_mem_nil sen)⟩

/-- Soundness is preserved along any run of consistent observations, as are
the grid dimensions. -/
lemma sound_run (M : Finset Cell) (h w : Int) (obs : List (Cell × Int)) :
    ∀ s : MinesweeperAI, s.height = h → s.width = w → SoundState M s →
      (∀ o ∈ obs, ConsistentObs M h w o) →
      SoundState M (run_observations s obs) ∧
        (run_observations s obs).height = h ∧ (run_observations s obs).width = w := by
  induction obs with
  | nil => exact fun s hh hw hs _ => ⟨hs, hh, hw⟩
  | cons o obs ih =>
    intro s hh hw hs hobs
    have hstep : SoundState M (s.add_knowledge o.1 o.2) := by
      apply sound_add M s o.1 o.2 hs
      rw [hh, hw]
      exact hobs o (List.mem_cons_self _ _)
    exact ih (s.add_knowledge o.1 o.2)
      ((add_knowledge_height s o.1 o.2).trans hh)
      ((add_knowledge_width s o.1 o.2).trans hw) hstep
      (fun x hx => hobs x (List.mem_cons_of_mem _ hx))

/-- One `add_knowledge` call never removes a cell from either fact set. -/
lemma add_knowledge_mono (s : MinesweeperAI) (cell : Cell) (count : Int) :
    s.safes ⊆ (s.add_knowledge cell count).safes ∧
      s.mines ⊆ (s.add_knowledge cell count).mines := by
  rw [add_knowledge_safes s cell count, add_knowledge_mines s cell count]
  have hm := scan_facts_mono (s.add_knowledge cell count).knowledge
    (insert cell s.safes) s.mines
  exact ⟨(Finset.subset_insert cell s.safes).trans hm.1, hm.2⟩

/-! Claim C8. -/

/-- C8: across any sequence of `add_knowledge` calls on a fresh engine whose
observations are consistent with a fixed board `M`, each call only grows
`safes` and `mines`, and after each call the two sets are disjoint. The call
under scrutiny is selected by splitting the observation sequence as
`pre ++ o :: post`. -/
theorem c8_monotone_disjoint (M : Finset Cell) (h w : Int)
    (obs pre post : List (Cell × Int)) (o : Cell × Int)
    (hobs : ∀ x ∈ obs, ConsistentObs M h w x)
    (hsplit : obs = pre ++ o :: post) :
    (run_observations (MinesweeperAI.init h w) pre).safes ⊆
        ((run_observations (MinesweeperAI.init h w) pre).add_knowledge o.1 o.2).safes ∧
      (run_observations (MinesweeperAI.init h w) pre).mines ⊆
        ((run_observations (MinesweeperAI.init h w) pre).add_knowledge o.1 o.2).mines ∧
      Disjoint
        ((run_observations (MinesweeperAI.init h w) pre).add_knowledge o.1 o.2).safes
        ((run_observations (MinesweeperAI.init h w) pre).add_knowledge o.1 o.2).mines := by
  subst hsplit
  have hpre : ∀ x ∈ pre, ConsistentObs M h w x := fun x hx =>
    hobs x (List.mem_append.mpr (Or.inl hx))
  obtain ⟨hsound, hh, hw⟩ :=
    sound_run M h w pre (MinesweeperAI.init h w) rfl rfl (sound_init M h w) hpre
  have hpost : SoundState M
      ((run_observations (MinesweeperAI.init h w) pre).add_knowledge o.1 o.2) := by
    apply sound_add M _ o.1 o.2 hsound
    rw [hh, hw]
    exact hobs o (List.mem_append.mpr (Or.inr (List.mem_cons_self _ _)))
  obtain ⟨hps, hpm, _⟩ := hpost
  refine ⟨(add_knowledge_mono _ o.1 o.2).1, (add_knowledge_mono _ o.1 o.2).2, ?_⟩
  rw [Finset.disjoint_left]
  intro a ha hm
  exact hps a ha (hpm a hm)

/-- C8 witness: the single consistent observation `((0,0), 1)` on a 1×2 board
whose only mine is `(0,1)`. -/
theorem c8_witness :
    (run_observations (MinesweeperAI.init 1 2) []).safes ⊆
        ((run_observations (MinesweeperAI.init 1 2) []).add_knowledge (0,0) 1).safes ∧
      (run_observations (MinesweeperAI.init 1 2) []).mines ⊆
        ((run_observations (MinesweeperAI.init 1 2) []).add_knowledge (0,0) 1).mines ∧
      Disjoint
        ((run_observations (MinesweeperAI.init 1 2) []).add_knowledge (0,0) 1).safes
        ((run_observations (MinesweeperAI.init 1 2) []).add_knowledge (0,0) 1).mines :=
  c8_monotone_disjoint {(0,1)} 1 2 [((0,0), 1)] [] [] ((0,0), 1) (by decide) rfl
